import Mathlib

/-!
Verification of the core numerical engine of the `raytracer` repository
(matrix algebra, tuple algebra, ray/sphere intersection, nearest-hit
selection and Phong lighting), as a shallow embedding in Lean 4.

The Rust scalar type `Float` (an alias for `f64`) is embedded as an
arbitrary linear ordered field `α`, instantiated at `ℚ` and `ℝ` in the
theorems; arithmetic is exact, and a reciprocal `1 / d` is finite exactly
when `d ≠ 0`, so the source's `(1.0 / det).is_finite()` test becomes a
`det ≠ 0` test.  Rust functions whose only failure mode is a panic
(`expect`) are embedded as `Option`-returning functions where `none`
marks the panic.
-/

set_option maxHeartbeats 4000000
set_option linter.unusedSectionVars false
set_option linter.unusedVariables false

namespace Raytracer

/-- Embedding of `Matrix<M, N>` from `src/primitives/matrix.rs`: an `M×N`
grid of scalars, represented as a function of the row and column index. -/
structure Matrix (M N : Nat) (α : Type) where
  of ::
  data : Fin M → Fin N → α

theorem Matrix.ext_data {M N : Nat} {α : Type} {A B : Matrix M N α}
    (h : A.data = B.data) : A = B := by
  cases A; cases B; simpa using h

@[simp] theorem Matrix.data_of {M N : Nat} {α : Type} (f : Fin M → Fin N → α) :
    (Matrix.of f).data = f := rfl

instance {M N : Nat} {α : Type} [DecidableEq α] : DecidableEq (Matrix M N α) := fun A B =>
  decidable_of_iff (A.data = B.data) ⟨Matrix.ext_data, fun h => by rw [h]⟩

section DataModel

variable {α : Type} [LinearOrderedField α]

/-- Embedding of `Matrix::zeros`. -/
def Matrix.zeros (M N : Nat) : Matrix M N α := .of fun _ _ => 0

/-- Embedding of `Matrix::ones`. -/
def Matrix.ones (M N : Nat) : Matrix M N α := .of fun _ _ => 1

/-- Embedding of `Matrix::identity` (square matrices). -/
def Matrix.identity (N : Nat) : Matrix N N α := .of fun i j => if i = j then 1 else 0

/-- Embedding of `Matrix::matmul`: `out[i][j] = Σ_k self[i][k] * rhs[k][j]`. -/
def Matrix.matmul {M N P : Nat} (A : Matrix M N α) (B : Matrix N P α) : Matrix M P α :=
  .of fun i j => ∑ k, A.data i k * B.data k j

/-- Embedding of `Matrix::transpose`: `t[j][i] = self[i][j]`. -/
def Matrix.transpose {M N : Nat} (A : Matrix M N α) : Matrix N M α :=
  .of fun j i => A.data i j

/-- Embedding of `Point` from `src/primitives/tuple.rs` (homogeneous w = 1). -/
structure Point (α : Type) where
  x : α
  y : α
  z : α
deriving DecidableEq

/-- Embedding of `Vector` from `src/primitives/tuple.rs` (homogeneous w = 0). -/
structure Vector (α : Type) where
  x : α
  y : α
  z : α
deriving DecidableEq

/-- Embedding of `Point::origin`. -/
def Point.origin : Point α := ⟨0, 0, 0⟩

/-- Embedding of `impl From<Point> for Matrix<4, 1>`: column `(x, y, z, 1)`. -/
def Point.toMatrix (p : Point α) : Matrix 4 1 α :=
  .of fun i _ => ![p.x, p.y, p.z, 1] i

/-- Embedding of `impl From<Vector> for Matrix<4, 1>`: column `(x, y, z, 0)`. -/
def Vector.toMatrix (v : Vector α) : Matrix 4 1 α :=
  .of fun i _ => ![v.x, v.y, v.z, 0] i

/-- Embedding of `impl TryFrom<Matrix<4, 1>> for Point`: succeeds exactly when
the w entry equals 1. -/
def Point.tryFromMatrix (m : Matrix 4 1 α) : Option (Point α) :=
  if m.data 3 0 = 1 then some ⟨m.data 0 0, m.data 1 0, m.data 2 0⟩ else none

/-- Embedding of `impl TryFrom<Matrix<4, 1>> for Vector`: succeeds exactly when
the w entry equals 0. -/
def Vector.tryFromMatrix (m : Matrix 4 1 α) : Option (Vector α) :=
  if m.data 3 0 = 0 then some ⟨m.data 0 0, m.data 1 0, m.data 2 0⟩ else none

/-- Embedding of `Sub<Point> for Point` (`Point - Point = Vector`). -/
def Point.subPoint (p q : Point α) : Vector α := ⟨p.x - q.x, p.y - q.y, p.z - q.z⟩

/-- Embedding of `Neg for Vector`. -/
def Vector.neg (v : Vector α) : Vector α := ⟨-v.x, -v.y, -v.z⟩

/-- Embedding of `Sub<Vector> for Vector`. -/
def Vector.sub (v w : Vector α) : Vector α := ⟨v.x - w.x, v.y - w.y, v.z - w.z⟩

/-- Embedding of `Mul<Vector> for Float` (scalar times vector). -/
def Vector.smul (c : α) (v : Vector α) : Vector α := ⟨c * v.x, c * v.y, c * v.z⟩

/-- Embedding of `Div<Float> for Vector` (componentwise division). -/
def Vector.divScalar (v : Vector α) (c : α) : Vector α := ⟨v.x / c, v.y / c, v.z / c⟩

/-- Embedding of `Vector::dot`. -/
def Vector.dot (v w : Vector α) : α := v.x * w.x + v.y * w.y + v.z * w.z

/-- Embedding of `Vector::squared_length` (`self.dot(*self)`). -/
def Vector.squaredLength (v : Vector α) : α := v.dot v

/-- Embedding of `Vector::length` (`self.squared_length().sqrt()`); the f64
square root is passed in explicitly (`Real.sqrt` at type `ℝ`). -/
def Vector.length (sqrt : α → α) (v : Vector α) : α := sqrt v.squaredLength

/-- Embedding of `Vector::normalize` (`*self / self.length()`). -/
def Vector.normalize (sqrt : α → α) (v : Vector α) : Vector α :=
  v.divScalar (v.length sqrt)

/-- Modelled from the spec: `Vector::reflect` is called by `Material::lighting`
but its definition is missing from the source snapshot; the spec (section 4.5)
defines it as mirroring `d` about `n`, `r = d − 2·(d·n)·n`. -/
def Vector.reflect (d n : Vector α) : Vector α :=
  d.sub (Vector.smul (2 * d.dot n) n)

/-- Embedding of `Color` from `src/primitives/color.rs`. -/
structure Color (α : Type) where
  r : α
  g : α
  b : α
deriving DecidableEq

/-- Embedding of `Color::black()`. -/
def Color.black : Color α := ⟨0, 0, 0⟩

/-- Embedding of `Color::white()`. -/
def Color.white : Color α := ⟨1, 1, 1⟩

/-- Embedding of `Add<Color> for Color` (componentwise). -/
def Color.add (c d : Color α) : Color α := ⟨c.r + d.r, c.g + d.g, c.b + d.b⟩

/-- Embedding of `Mul<Color> for Color` (componentwise). -/
def Color.mulColor (c d : Color α) : Color α := ⟨c.r * d.r, c.g * d.g, c.b * d.b⟩

/-- Embedding of `Mul<Float> for Color` (each channel scaled). -/
def Color.mulScalar (c : Color α) (s : α) : Color α := ⟨c.r * s, c.g * s, c.b * s⟩

/-- Embedding of `Material` from `src/material.rs`. -/
structure Material (α : Type) where
  color : Color α
  ambient : α
  diffuse : α
  specular : α
  shininess : α
deriving DecidableEq

/-- Embedding of `Material::default`: white, ambient 0.1, diffuse 0.9,
specular 0.9, shininess 200. -/
def Material.default : Material α :=
  ⟨Color.white, 1 / 10, 9 / 10, 9 / 10, 200⟩

/-- Embedding of `PointLight` from `src/point_light.rs`. -/
structure PointLight (α : Type) where
  position : Point α
  intensity : Color α

/-- Embedding of `Sphere` from `src/objects/sphere.rs`: a unit sphere in its
own local space, placed in world space by `transform`. -/
structure Sphere (α : Type) where
  transform : Matrix 4 4 α
  material : Material α
deriving DecidableEq

/-- Embedding of `Sphere::default`: identity transform and default material. -/
def Sphere.default : Sphere α := ⟨Matrix.identity 4, Material.default⟩

/-- Embedding of `Ray` from `src/ray.rs`. -/
structure Ray (α : Type) where
  origin : Point α
  direction : Vector α
deriving DecidableEq

/-- Embedding of `Intersection` from `src/intersection.rs`. -/
structure Intersection (α : Type) where
  t : α
  object : Sphere α
deriving DecidableEq

/-- Embedding of `<Matrix2x2 as Invertible>::determinant`. -/
def determinant2x2 (A : Matrix 2 2 α) : α :=
  A.data 0 0 * A.data 1 1 - A.data 0 1 * A.data 1 0

/-- Embedding of `<Matrix2x2 as Invertible>::inverse`.  The source computes
`inv_det = 1.0 / determinant` and returns `None` when `inv_det` is not
finite; in exact arithmetic the reciprocal is finite exactly when the
determinant is nonzero. -/
def inverse2x2 (A : Matrix 2 2 α) : Option (Matrix 2 2 α) :=
  let invDet := 1 / determinant2x2 A
  if determinant2x2 A = 0 then none else
    some (.of ![![A.data 1 1 * invDet, -A.data 0 1 * invDet],
                ![-A.data 1 0 * invDet, A.data 0 0 * invDet]])

/-- Embedding of `<Matrix3x3 as Invertible>::determinant`. -/
def determinant3x3 (A : Matrix 3 3 α) : α :=
  A.data 0 0 * A.data 1 1 * A.data 2 2
    - A.data 0 0 * A.data 1 2 * A.data 2 1
    - A.data 0 1 * A.data 1 0 * A.data 2 2
    + A.data 0 1 * A.data 1 2 * A.data 2 0
    + A.data 0 2 * A.data 1 0 * A.data 2 1
    - A.data 0 2 * A.data 1 1 * A.data 2 0

/-- Embedding of `<Matrix3x3 as Invertible>::inverse` (same finiteness
convention as `inverse2x2`). -/
def inverse3x3 (A : Matrix 3 3 α) : Option (Matrix 3 3 α) :=
  let a := A.data
  let invDet := 1 / determinant3x3 A
  if determinant3x3 A = 0 then none else
    some (.of ![
      ![(a 1 1 * a 2 2 - a 1 2 * a 2 1) * invDet,
        (-a 0 1 * a 2 2 + a 0 2 * a 2 1) * invDet,
        (a 0 1 * a 1 2 - a 0 2 * a 1 1) * invDet],
      ![(-a 1 0 * a 2 2 + a 1 2 * a 2 0) * invDet,
        (a 0 0 * a 2 2 - a 0 2 * a 2 0) * invDet,
        (-a 0 0 * a 1 2 + a 0 2 * a 1 0) * invDet],
      ![(a 1 0 * a 2 1 - a 1 1 * a 2 0) * invDet,
        (-a 0 0 * a 2 1 + a 0 1 * a 2 0) * invDet,
        (a 0 0 * a 1 1 - a 0 1 * a 1 0) * invDet]])

/-- Embedding of `<Matrix4x4 as Invertible>::determinant` (with the `t….`
abbreviations of the source). -/
def determinant4x4 (A : Matrix 4 4 α) : α :=
  let a := A.data
  let t2323 := a 2 2 * a 3 3 - a 2 3 * a 3 2
  let t1323 := a 2 1 * a 3 3 - a 2 3 * a 3 1
  let t1223 := a 2 1 * a 3 2 - a 2 2 * a 3 1
  let t0323 := a 2 0 * a 3 3 - a 2 3 * a 3 0
  let t0223 := a 2 0 * a 3 2 - a 2 2 * a 3 0
  let t0123 := a 2 0 * a 3 1 - a 2 1 * a 3 0
  a 0 0 * (a 1 1 * t2323 - a 1 2 * t1323 + a 1 3 * t1223)
    - a 0 1 * (a 1 0 * t2323 - a 1 2 * t0323 + a 1 3 * t0223)
    + a 0 2 * (a 1 0 * t1323 - a 1 1 * t0323 + a 1 3 * t0123)
    - a 0 3 * (a 1 0 * t1223 - a 1 1 * t0223 + a 1 2 * t0123)

/-- The 16 parenthesized cofactor expressions of
`<Matrix4x4 as Invertible>::inverse`, before the `inv_det` factor. -/
def adjugate4x4 (A : Matrix 4 4 α) : Matrix 4 4 α :=
  let a := A.data
  let t2323 := a 2 2 * a 3 3 - a 2 3 * a 3 2
  let t1323 := a 2 1 * a 3 3 - a 2 3 * a 3 1
  let t1223 := a 2 1 * a 3 2 - a 2 2 * a 3 1
  let t0323 := a 2 0 * a 3 3 - a 2 3 * a 3 0
  let t0223 := a 2 0 * a 3 2 - a 2 2 * a 3 0
  let t0123 := a 2 0 * a 3 1 - a 2 1 * a 3 0
  let t2313 := a 1 2 * a 3 3 - a 1 3 * a 3 2
  let t1313 := a 1 1 * a 3 3 - a 1 3 * a 3 1
  let t1213 := a 1 1 * a 3 2 - a 1 2 * a 3 1
  let t2312 := a 1 2 * a 2 3 - a 1 3 * a 2 2
  let t1312 := a 1 1 * a 2 3 - a 1 3 * a 2 1
  let t1212 := a 1 1 * a 2 2 - a 1 2 * a 2 1
  let t0313 := a 1 0 * a 3 3 - a 1 3 * a 3 0
  let t0213 := a 1 0 * a 3 2 - a 1 2 * a 3 0
  let t0312 := a 1 0 * a 2 3 - a 1 3 * a 2 0
  let t0212 := a 1 0 * a 2 2 - a 1 2 * a 2 0
  let t0113 := a 1 0 * a 3 1 - a 1 1 * a 3 0
  let t0112 := a 1 0 * a 2 1 - a 1 1 * a 2 0
  .of ![
    ![a 1 1 * t2323 - a 1 2 * t1323 + a 1 3 * t1223,
      a 0 2 * t1323 - a 0 1 * t2323 - a 0 3 * t1223,
      a 0 1 * t2313 - a 0 2 * t1313 + a 0 3 * t1213,
      a 0 2 * t1312 - a 0 1 * t2312 - a 0 3 * t1212],
    ![a 1 2 * t0323 - a 1 0 * t2323 - a 1 3 * t0223,
      a 0 0 * t2323 - a 0 2 * t0323 + a 0 3 * t0223,
      a 0 2 * t0313 - a 0 0 * t2313 - a 0 3 * t0213,
      a 0 0 * t2312 - a 0 2 * t0312 + a 0 3 * t0212],
    ![a 1 0 * t1323 - a 1 1 * t0323 + a 1 3 * t0123,
      a 0 1 * t0323 - a 0 0 * t1323 - a 0 3 * t0123,
      a 0 0 * t1313 - a 0 1 * t0313 + a 0 3 * t0113,
      a 0 1 * t0312 - a 0 0 * t1312 - a 0 3 * t0112],
    ![a 1 1 * t0223 - a 1 0 * t1223 - a 1 2 * t0123,
      a 0 0 * t1223 - a 0 1 * t0223 + a 0 2 * t0123,
      a 0 1 * t0213 - a 0 0 * t1213 - a 0 2 * t0113,
      a 0 0 * t1212 - a 0 1 * t0212 + a 0 2 * t0112]]

/-- Embedding of `<Matrix4x4 as Invertible>::inverse`: every entry of the
cofactor matrix scaled by `inv_det` (same finiteness convention as
`inverse2x2`). -/
def inverse4x4 (A : Matrix 4 4 α) : Option (Matrix 4 4 α) :=
  let invDet := 1 / determinant4x4 A
  if determinant4x4 A = 0 then none else
    some (.of fun i j => invDet * (adjugate4x4 A).data i j)

/-- Embedding of `Ray::transform`: both columns are multiplied by the matrix
and converted back with `try_into`; the source's `expect` panics when a
conversion fails, embedded here as `none`. -/
def Ray.transform (r : Ray α) (m : Matrix 4 4 α) : Option (Ray α) :=
  match Point.tryFromMatrix (m.matmul r.origin.toMatrix),
        Vector.tryFromMatrix (m.matmul r.direction.toMatrix) with
  | some o, some d => some ⟨o, d⟩
  | _, _ => none

/-- Embedding of `Ray::intersect`: a non-invertible sphere transform yields
`vec![]`; then the ray is moved to object space (where the `expect` inside
`Ray::transform` can panic, embedded as `none`), the unit-sphere quadratic is
solved, and a negative discriminant yields `vec![]`, otherwise the two roots
in the source's order. -/
def Ray.intersect (sqrt : α → α) (r : Ray α) (object : Sphere α) :
    Option (List (Intersection α)) :=
  match inverse4x4 object.transform with
  | none => some []
  | some inverseTransform =>
    match r.transform inverseTransform with
    | none => none
    | some ray =>
      let sphereToRay := ray.origin.subPoint Point.origin
      let a := ray.direction.squaredLength
      let b := 2 * ray.direction.dot sphereToRay
      let c := sphereToRay.squaredLength - 1
      let discriminant := b * b - 4 * a * c
      if discriminant < 0 then some [] else
        let sq := sqrt discriminant
        let div := 1 / (2 * a)
        some [⟨(-b - sq) * div, object⟩, ⟨(-b + sq) * div, object⟩]

/-- One iteration of the loop in `get_hit`: keep the intersection when its
`t` is strictly positive and strictly below the running minimum. -/
def getHitStep (acc : Option (Intersection α) × WithTop α) (i : Intersection α) :
    Option (Intersection α) × WithTop α :=
  if 0 < i.t ∧ (i.t : WithTop α) < acc.2 then (some i, (i.t : WithTop α)) else acc

/-- Embedding of `get_hit` from `src/ray.rs`: scan the slice with a running
minimum that starts at `Float::INFINITY` (embedded as `⊤` in `WithTop α`). -/
def get_hit (intersections : List (Intersection α)) : Option (Intersection α) :=
  (intersections.foldl getHitStep (none, ⊤)).1

/-- Embedding of the in-place write `m.data[3][0] = 0.0` on a 4×1 matrix. -/
def setWZero (m : Matrix 4 1 α) : Matrix 4 1 α :=
  .of fun i j => if i = 3 then 0 else m.data i j

/-- Embedding of `Sphere::normal_at`; the `expect` on a non-invertible
transform is embedded as `none`.  The final `Vector::try_from` cannot fail
because the w entry has just been zeroed, and the embedding keeps the
conversion explicit. -/
def Sphere.normalAt (sqrt : α → α) (s : Sphere α) (worldPoint : Point α) :
    Option (Vector α) :=
  match inverse4x4 s.transform with
  | none => none
  | some invTransform =>
    let objectPoint := invTransform.matmul worldPoint.toMatrix
    let objectNormal := setWZero objectPoint
    let worldNormal := setWZero (invTransform.transpose.matmul objectNormal)
    (Vector.tryFromMatrix worldNormal).map (Vector.normalize sqrt)

/-- Embedding of `Material::lighting` from `src/material.rs`; `sqrt` is the
f64 square root (used by `normalize`) and `powf` the f64 power function. -/
def Material.lighting (sqrt : α → α) (powf : α → α → α) (m : Material α)
    (light : PointLight α) (point : Point α) (eye normal : Vector α) : Color α :=
  let effectiveColor := m.color.mulColor light.intensity
  let lightv := (light.position.subPoint point).normalize sqrt
  let ambient := effectiveColor.mulScalar m.ambient
  let lightDotNormal := lightv.dot normal
  let ds : Color α × Color α :=
    if 0 < lightDotNormal then
      let diffuse := (effectiveColor.mulScalar m.diffuse).mulScalar lightDotNormal
      let reflectv := Vector.reflect lightv.neg normal
      let reflectDotEye := reflectv.dot eye
      if 0 < reflectDotEye then
        (diffuse, (light.intensity.mulScalar m.specular).mulScalar (powf reflectDotEye m.shininess))
      else
        (diffuse, Color.black)
    else
      (Color.black, Color.black)
  (ambient.add ds.1).add ds.2

/-- Embedding of the repository's `approx_eq!` macro with its default
tolerances: `|x − y| ≤ sqrt(f64::EPSILON) + 1e-5 * |y|`, where
`sqrt(f64::EPSILON) = 2^(-26) = 1/67108864` exactly. -/
def approxEq (x y : α) : Prop :=
  |x - y| ≤ 1 / 67108864 + 1 / 100000 * |y|

/-- Entrywise `approx_eq` on matrices (the `assert_approx_eq!` test macro). -/
def approxEqMatrix {M N : Nat} (A B : Matrix M N α) : Prop :=
  ∀ i j, approxEq (A.data i j) (B.data i j)

/-- Channelwise `approx_eq` on colors (the `assert_color_approx_eq!` macro). -/
def approxEqColor (c d : Color α) : Prop :=
  approxEq c.r d.r ∧ approxEq c.g d.g ∧ approxEq c.b d.b

instance (x y : α) : Decidable (approxEq x y) := by unfold approxEq; infer_instance

end DataModel

section MatrixTheorems

variable {α : Type} [LinearOrderedField α]

/-- Reflexivity of the tolerance-based comparison: `|x − x| = 0` is below the
absolute tolerance. -/
theorem approxEq_self (x : α) : approxEq x x := by
  unfold approxEq
  have h1 : (0:α) ≤ 1 / 67108864 := by norm_num
  have h2 : (0:α) ≤ 1 / 100000 * |x| := by positivity
  simp [abs_nonneg]
  linarith

theorem approxEqMatrix_self {M N : Nat} (A : Matrix M N α) : approxEqMatrix A A :=
  fun _ _ => approxEq_self _

/-- C10: transposing twice is the identity, entry for entry (the two index
swaps of `Matrix::transpose` cancel). -/
theorem c10_transpose_transpose (M N : Nat) (A : Matrix M N α) :
    A.transpose.transpose = A := rfl

theorem determinant2x2_ones : determinant2x2 (Matrix.ones 2 2 : Matrix 2 2 α) = 0 := by
  simp [determinant2x2, Matrix.ones]

theorem determinant3x3_ones : determinant3x3 (Matrix.ones 3 3 : Matrix 3 3 α) = 0 := by
  simp [determinant3x3, Matrix.ones]

theorem determinant4x4_ones : determinant4x4 (Matrix.ones 4 4 : Matrix 4 4 α) = 0 := by
  simp [determinant4x4, Matrix.ones]

/-- C3: for each square size, `inverse` returns `None` exactly when the
reciprocal of the determinant is not finite — in the exact-arithmetic
embedding, exactly when the determinant is zero — and the all-ones matrix of
each size has no inverse.  The non-invertible outcome is an `Option` value,
not a crash. -/
theorem c3_inverse_none_iff_det_zero (α : Type) [LinearOrderedField α] :
    (∀ A : Matrix 2 2 α, inverse2x2 A = none ↔ determinant2x2 A = 0) ∧
    (∀ A : Matrix 3 3 α, inverse3x3 A = none ↔ determinant3x3 A = 0) ∧
    (∀ A : Matrix 4 4 α, inverse4x4 A = none ↔ determinant4x4 A = 0) ∧
    inverse2x2 (Matrix.ones 2 2 : Matrix 2 2 α) = none ∧
    inverse3x3 (Matrix.ones 3 3 : Matrix 3 3 α) = none ∧
    inverse4x4 (Matrix.ones 4 4 : Matrix 4 4 α) = none := by
  have h2 : ∀ A : Matrix 2 2 α, inverse2x2 A = none ↔ determinant2x2 A = 0 := by
    intro A
    by_cases h : determinant2x2 A = 0 <;> simp [inverse2x2, h]
  have h3 : ∀ A : Matrix 3 3 α, inverse3x3 A = none ↔ determinant3x3 A = 0 := by
    intro A
    by_cases h : determinant3x3 A = 0 <;> simp [inverse3x3, h]
  have h4 : ∀ A : Matrix 4 4 α, inverse4x4 A = none ↔ determinant4x4 A = 0 := by
    intro A
    by_cases h : determinant4x4 A = 0 <;> simp [inverse4x4, h]
  exact ⟨h2, h3, h4, (h2 _).mpr determinant2x2_ones, (h3 _).mpr determinant3x3_ones,
    (h4 _).mpr determinant4x4_ones⟩

/-- Laplace-expansion identity for the cofactor expressions of the source's
4×4 `inverse`: row `i` of `A` against column `j` of the cofactor matrix gives
the determinant on the diagonal and 0 elsewhere. -/
theorem mul_adjugate4x4 (A : Matrix 4 4 α) (i j : Fin 4) :
    (∑ k, A.data i k * (adjugate4x4 A).data k j) =
      if i = j then determinant4x4 A else 0 := by
  fin_cases i <;> fin_cases j <;>
    (simp [adjugate4x4, determinant4x4, Fin.sum_univ_four]; ring)

/-- Exact form of the inverse round-trip for 4×4 matrices. -/
theorem matmul_inverse4x4_eq (A B : Matrix 4 4 α) (h : inverse4x4 A = some B) :
    A.matmul B = Matrix.identity 4 := by
  have hd : determinant4x4 A ≠ 0 := fun h0 => by simp [inverse4x4, h0] at h
  have hB : B = .of fun i j => 1 / determinant4x4 A * (adjugate4x4 A).data i j := by
    simp only [inverse4x4, if_neg hd, Option.some.injEq] at h
    exact h.symm
  subst hB
  apply Matrix.ext_data
  funext i j
  have step1 : (∑ k, A.data i k * (1 / determinant4x4 A * (adjugate4x4 A).data k j)) =
      1 / determinant4x4 A * ∑ k, A.data i k * (adjugate4x4 A).data k j := by
    rw [Finset.mul_sum]
    exact Finset.sum_congr rfl fun k _ => by ring
  simp only [Matrix.matmul, Matrix.data_of, step1, mul_adjugate4x4, Matrix.identity]
  split
  · field_simp
  · simp

/-- Exact form of the inverse round-trip for 2×2 matrices. -/
theorem matmul_inverse2x2_eq (A B : Matrix 2 2 α) (h : inverse2x2 A = some B) :
    A.matmul B = Matrix.identity 2 := by
  have hd : determinant2x2 A ≠ 0 := fun h0 => by simp [inverse2x2, h0] at h
  simp only [inverse2x2, if_neg hd, Option.some.injEq] at h
  subst h
  apply Matrix.ext_data
  funext i j
  fin_cases i <;> fin_cases j <;>
    (simp [Matrix.matmul, Fin.sum_univ_two, Matrix.identity, Matrix.vecHead, Matrix.vecTail]
     try field_simp
     try simp only [determinant2x2]
     try ring)

/-- Exact form of the inverse round-trip for 3×3 matrices. -/
theorem matmul_inverse3x3_eq (A B : Matrix 3 3 α) (h : inverse3x3 A = some B) :
    A.matmul B = Matrix.identity 3 := by
  have hd : determinant3x3 A ≠ 0 := fun h0 => by simp [inverse3x3, h0] at h
  simp only [inverse3x3, if_neg hd, Option.some.injEq] at h
  subst h
  apply Matrix.ext_data
  funext i j
  fin_cases i <;> fin_cases j <;>
    (simp [Matrix.matmul, Fin.sum_univ_three, Matrix.identity, Matrix.vecHead, Matrix.vecTail]
     try field_simp
     try simp only [determinant3x3]
     try ring)

/-- C4: whenever `inverse` succeeds, multiplying the matrix by its inverse
gives the identity to within the `approx_eq` tolerance (here the round trip
is even exact, since the embedding computes in exact arithmetic). -/
theorem c4_matmul_inverse_approx_identity (α : Type) [LinearOrderedField α] :
    (∀ A B : Matrix 2 2 α, inverse2x2 A = some B →
      approxEqMatrix (A.matmul B) (Matrix.identity 2)) ∧
    (∀ A B : Matrix 3 3 α, inverse3x3 A = some B →
      approxEqMatrix (A.matmul B) (Matrix.identity 3)) ∧
    (∀ A B : Matrix 4 4 α, inverse4x4 A = some B →
      approxEqMatrix (A.matmul B) (Matrix.identity 4)) :=
  ⟨fun A B h => matmul_inverse2x2_eq A B h ▸ approxEqMatrix_self _,
   fun A B h => matmul_inverse3x3_eq A B h ▸ approxEqMatrix_self _,
   fun A B h => matmul_inverse4x4_eq A B h ▸ approxEqMatrix_self _⟩

theorem determinant4x4_identity : determinant4x4 (Matrix.identity 4 : Matrix 4 4 α) = 1 := by
  simp +decide [determinant4x4, Matrix.identity]

/-- Inverting the identity matrix gives back the identity. -/
theorem inverse4x4_identity :
    inverse4x4 (Matrix.identity 4 : Matrix 4 4 α) = some (Matrix.identity 4) := by
  simp only [inverse4x4, determinant4x4_identity, one_ne_zero, if_false, Option.some.injEq]
  apply Matrix.ext_data
  funext i j
  fin_cases i <;> fin_cases j <;>
    simp +decide [adjugate4x4, Matrix.identity, Matrix.vecHead, Matrix.vecTail]

/-- Witness for C4: a concrete invertible 4×4 matrix over `ℚ` whose inverse
round-trips to the identity within tolerance. -/
theorem c4_matmul_inverse_approx_identity_witness :
    approxEqMatrix ((Matrix.identity 4 : Matrix 4 4 ℚ).matmul (Matrix.identity 4))
      (Matrix.identity 4) :=
  (c4_matmul_inverse_approx_identity ℚ).2.2 _ _ inverse4x4_identity

end MatrixTheorems

section GetHitTheorems

variable {α : Type} [LinearOrderedField α]

/-- The nearest-hit property: `h` has strictly positive `t`, occurs in the
list, every earlier element is either non-positive or strictly larger
(so on ties the first occurrence wins), and every later element is either
non-positive or at least as large. -/
def IsTheHit (l : List (Intersection α)) (h : Intersection α) : Prop :=
  0 < h.t ∧
  ∃ l₁ l₂, l = l₁ ++ h :: l₂ ∧
    (∀ i ∈ l₁, ¬(0 < i.t ∧ i.t ≤ h.t)) ∧
    (∀ i ∈ l₂, ¬(0 < i.t ∧ i.t < h.t))

/-- Invariant of the `get_hit` loop relating the accumulator to the scanned
part of the slice. -/
def HitInv (seen : List (Intersection α)) (acc : Option (Intersection α) × WithTop α) : Prop :=
  (acc = (none, ⊤) ∧ ∀ i ∈ seen, i.t ≤ 0) ∨
  (∃ h, acc = (some h, (h.t : WithTop α)) ∧ IsTheHit seen h)

theorem hitInv_step (seen : List (Intersection α)) (acc : Option (Intersection α) × WithTop α)
    (i : Intersection α) (H : HitInv seen acc) :
    HitInv (seen ++ [i]) (getHitStep acc i) := by
  unfold getHitStep
  rcases H with ⟨hacc, hall⟩ | ⟨h, hacc, hpos, l₁, l₂, hdec, h₁, h₂⟩
  · subst hacc
    by_cases hipos : 0 < i.t
    · rw [if_pos ⟨hipos, WithTop.coe_lt_top _⟩]
      refine Or.inr ⟨i, rfl, hipos, seen, [], by simp, ?_, by simp⟩
      intro j hj hcontr
      exact absurd hcontr.1 (not_lt.mpr (hall j hj))
    · rw [if_neg fun hc => hipos hc.1]
      refine Or.inl ⟨rfl, fun j hj => ?_⟩
      rcases List.mem_append.mp hj with hj | hj
      · exact hall j hj
      · rw [List.mem_singleton.mp hj]
        exact not_lt.mp hipos
  · subst hacc hdec
    by_cases hc : 0 < i.t ∧ (i.t : WithTop α) < ((h.t : WithTop α))
    · rw [if_pos hc]
      obtain ⟨hipos, hlt'⟩ := hc
      have hlt : i.t < h.t := WithTop.coe_lt_coe.mp hlt'
      refine Or.inr ⟨i, rfl, hipos, l₁ ++ h :: l₂, [], by simp, ?_, by simp⟩
      intro j hj hcontr
      obtain ⟨hjpos, hjle⟩ := hcontr
      rcases List.mem_append.mp hj with hj | hj
      · exact h₁ j hj ⟨hjpos, le_trans hjle (le_of_lt hlt)⟩
      · rcases List.mem_cons.mp hj with rfl | hj
        · exact absurd hjle (not_le.mpr hlt)
        · exact h₂ j hj ⟨hjpos, lt_of_le_of_lt hjle hlt⟩
    · rw [if_neg hc]
      refine Or.inr ⟨h, rfl, hpos, l₁, l₂ ++ [i], by simp, h₁, fun j hj => ?_⟩
      rcases List.mem_append.mp hj with hj | hj
      · exact h₂ j hj
      · rw [List.mem_singleton.mp hj]
        intro hcontr
        exact hc ⟨hcontr.1, WithTop.coe_lt_coe.mpr hcontr.2⟩

theorem hitInv_foldl (l : List (Intersection α)) :
    ∀ seen acc, HitInv seen acc → HitInv (seen ++ l) (l.foldl getHitStep acc) := by
  induction l with
  | nil => intro seen acc H; simpa using H
  | cons i rest ih =>
    intro seen acc H
    have H2 := ih (seen ++ [i]) (getHitStep acc i) (hitInv_step seen acc i H)
    simpa [List.append_assoc] using H2

/-- C1: `get_hit` returns `none` exactly when no candidate has strictly
positive `t`; when it returns a hit, that hit has strictly positive `t`, is
the smallest strictly positive `t` in the slice and, on ties, the first such
element in encounter order — a candidate with `t ≤ 0` is never returned. -/
theorem c1_get_hit_spec (l : List (Intersection α)) :
    (get_hit l = none ↔ ∀ i ∈ l, i.t ≤ 0) ∧
    (∀ h, get_hit l = some h → IsTheHit l h) := by
  have H := hitInv_foldl l [] (none, ⊤) (Or.inl ⟨rfl, by simp⟩)
  rw [List.nil_append] at H
  unfold get_hit
  rcases H with ⟨hacc, hall⟩ | ⟨h, hacc, hh⟩
  · rw [hacc]
    exact ⟨⟨fun _ => hall, fun _ => rfl⟩, fun h hcontr => absurd hcontr (by simp)⟩
  · rw [hacc]
    refine ⟨⟨fun hcontr => absurd hcontr (by simp), fun hnone => ?_⟩, fun h' hh' => ?_⟩
    · obtain ⟨hpos, l₁, l₂, hdec, _, _⟩ := hh
      have hmem : h ∈ l := hdec ▸ List.mem_append.mpr (Or.inr (List.mem_cons_self _ _))
      exact absurd hpos (not_lt.mpr (hnone h hmem))
    · have he : h = h' := by simpa using hh'
      exact he ▸ hh

/-- Witness for C1 at a concrete slice over `ℚ`: of the candidates with
`t = −1` and `t = 1`, the one with `t = 1` is the hit. -/
theorem c1_get_hit_spec_witness :
    IsTheHit [⟨-1, Sphere.default⟩, (⟨1, Sphere.default⟩ : Intersection ℚ)]
      ⟨1, Sphere.default⟩ :=
  (c1_get_hit_spec _).2 _ (by norm_num [get_hit, getHitStep])

end GetHitTheorems

section RayTheorems

variable {α : Type} [LinearOrderedField α]

/-- Multiplying a matrix whose bottom row is `(0,0,0,1)` by a point column
keeps the w entry at 1. -/
theorem matmul_point_w (M : Matrix 4 4 α) (p : Point α)
    (h0 : M.data 3 0 = 0) (h1 : M.data 3 1 = 0) (h2 : M.data 3 2 = 0)
    (h3 : M.data 3 3 = 1) : (M.matmul p.toMatrix).data 3 0 = 1 := by
  simp [Matrix.matmul, Fin.sum_univ_four, Point.toMatrix, Matrix.vecHead, Matrix.vecTail,
    h0, h1, h2, h3]

/-- Multiplying a matrix whose bottom row is `(0,0,0,1)` by a vector column
keeps the w entry at 0. -/
theorem matmul_vector_w (M : Matrix 4 4 α) (v : Vector α)
    (h0 : M.data 3 0 = 0) (h1 : M.data 3 1 = 0) (h2 : M.data 3 2 = 0)
    (h3 : M.data 3 3 = 1) : (M.matmul v.toMatrix).data 3 0 = 0 := by
  simp [Matrix.matmul, Fin.sum_univ_four, Vector.toMatrix, Matrix.vecHead, Matrix.vecTail,
    h0, h1, h2, h3]

/-- On a matrix whose bottom row is `(0,0,0,1)`, `Ray::transform` succeeds and
returns the two matrix-vector products, re-read as a point and a vector. -/
theorem transform_affine (r : Ray α) (M : Matrix 4 4 α)
    (h0 : M.data 3 0 = 0) (h1 : M.data 3 1 = 0) (h2 : M.data 3 2 = 0)
    (h3 : M.data 3 3 = 1) :
    r.transform M = some
      ⟨⟨(M.matmul r.origin.toMatrix).data 0 0, (M.matmul r.origin.toMatrix).data 1 0,
        (M.matmul r.origin.toMatrix).data 2 0⟩,
       ⟨(M.matmul r.direction.toMatrix).data 0 0, (M.matmul r.direction.toMatrix).data 1 0,
        (M.matmul r.direction.toMatrix).data 2 0⟩⟩ := by
  unfold Ray.transform
  rw [Point.tryFromMatrix, if_pos (matmul_point_w M r.origin h0 h1 h2 h3),
    Vector.tryFromMatrix, if_pos (matmul_vector_w M r.direction h0 h1 h2 h3)]

/-- The inverse (as computed by the source's cofactor formulas) of a matrix
whose bottom row is `(0,0,0,1)` again has bottom row `(0,0,0,1)`. -/
theorem inverse4x4_affine (A B : Matrix 4 4 α) (h : inverse4x4 A = some B)
    (h0 : A.data 3 0 = 0) (h1 : A.data 3 1 = 0) (h2 : A.data 3 2 = 0)
    (h3 : A.data 3 3 = 1) :
    B.data 3 0 = 0 ∧ B.data 3 1 = 0 ∧ B.data 3 2 = 0 ∧ B.data 3 3 = 1 := by
  have hd : determinant4x4 A ≠ 0 := fun hz => by simp [inverse4x4, hz] at h
  have hB : B = .of fun i j => 1 / determinant4x4 A * (adjugate4x4 A).data i j := by
    simp only [inverse4x4, if_neg hd, Option.some.injEq] at h
    exact h.symm
  subst hB
  refine ⟨?_, ?_, ?_, ?_⟩
  · simp [adjugate4x4, Matrix.vecHead, Matrix.vecTail, h0, h1, h2, h3]
  · simp [adjugate4x4, Matrix.vecHead, Matrix.vecTail, h0, h1, h2, h3]
  · simp [adjugate4x4, Matrix.vecHead, Matrix.vecTail, h0, h1, h2, h3]
  · simp only [Matrix.data_of]
    have key : determinant4x4 A = (adjugate4x4 A).data 3 3 := by
      simp [adjugate4x4, determinant4x4, Matrix.vecHead, Matrix.vecTail, h0, h1, h2, h3]
      try ring
    rw [show (1 : α) / determinant4x4 A * (adjugate4x4 A).data 3 3 =
      (adjugate4x4 A).data 3 3 / determinant4x4 A by ring, ← key]
    exact div_self hd

/-- Counterexample to C5 as stated: `Ray::transform` is not total over all
valid 4×4 matrices — at the zero matrix the transformed origin has w = 0, the
`try_into` fails and the `expect` panics (embedded as `none`). -/
theorem c5_transform_counterexample :
    Ray.transform (⟨⟨0, 0, 0⟩, ⟨0, 0, 1⟩⟩ : Ray ℚ) (Matrix.zeros 4 4) = none := by
  norm_num [Ray.transform, Matrix.matmul, Point.toMatrix, Vector.toMatrix,
    Point.tryFromMatrix, Vector.tryFromMatrix, Matrix.zeros, Fin.sum_univ_four]

/-- C5 (amended): for every ray and every 4×4 matrix whose bottom row is
`(0,0,0,1)` — in particular every affine transform, invertible or not —
`transform` succeeds and returns the ray whose origin is `M·origin` and whose
direction is `M·direction`; for general matrices it can fail (panic) when a
transformed column loses its homogeneous w value. -/
theorem c5_transform_applies_matrix (r : Ray α) (M : Matrix 4 4 α)
    (h0 : M.data 3 0 = 0) (h1 : M.data 3 1 = 0) (h2 : M.data 3 2 = 0)
    (h3 : M.data 3 3 = 1) :
    ∃ r' : Ray α, r.transform M = some r' ∧
      r'.origin.toMatrix = M.matmul r.origin.toMatrix ∧
      r'.direction.toMatrix = M.matmul r.direction.toMatrix := by
  refine ⟨_, transform_affine r M h0 h1 h2 h3, ?_, ?_⟩
  · apply Matrix.ext_data
    funext i j
    fin_cases i <;> fin_cases j
    · simp [Point.toMatrix]
    · simp [Point.toMatrix, Matrix.vecHead, Matrix.vecTail]
    · simp [Point.toMatrix, Matrix.vecHead, Matrix.vecTail]
    · simpa [Point.toMatrix, Matrix.vecHead, Matrix.vecTail] using
        (matmul_point_w M r.origin h0 h1 h2 h3).symm
  · apply Matrix.ext_data
    funext i j
    fin_cases i <;> fin_cases j
    · simp [Vector.toMatrix]
    · simp [Vector.toMatrix, Matrix.vecHead, Matrix.vecTail]
    · simp [Vector.toMatrix, Matrix.vecHead, Matrix.vecTail]
    · simpa [Vector.toMatrix, Matrix.vecHead, Matrix.vecTail] using
        (matmul_vector_w M r.direction h0 h1 h2 h3).symm

/-- Witness for C5 (amended) at the 4×4 identity over `ℚ`. -/
theorem c5_transform_applies_matrix_witness :
    ∃ r' : Ray ℚ, Ray.transform ⟨⟨1, 2, 3⟩, ⟨0, 1, 0⟩⟩ (Matrix.identity 4) = some r' ∧
      r'.origin.toMatrix = (Matrix.identity 4).matmul (Point.toMatrix ⟨1, 2, 3⟩) ∧
      r'.direction.toMatrix = (Matrix.identity 4).matmul (Vector.toMatrix ⟨0, 1, 0⟩) :=
  c5_transform_applies_matrix _ _ (by simp +decide [Matrix.identity])
    (by simp +decide [Matrix.identity]) (by simp +decide [Matrix.identity])
    (by simp +decide [Matrix.identity])

/-- C6: a sphere whose transform is not invertible yields zero intersections
through the normal return path (no failure). -/
theorem c6_intersect_degenerate_sphere (sqrt : α → α) (r : Ray α) (s : Sphere α)
    (h : inverse4x4 s.transform = none) : r.intersect sqrt s = some [] := by
  unfold Ray.intersect
  rw [h]

/-- Witness for C6: the all-ones transform over `ℚ` is not invertible and the
sphere is skipped. -/
theorem c6_intersect_degenerate_sphere_witness :
    Ray.intersect id (⟨⟨0, 0, -5⟩, ⟨0, 0, 1⟩⟩ : Ray ℚ) ⟨Matrix.ones 4 4, Material.default⟩ =
      some [] :=
  c6_intersect_degenerate_sphere id _ _ (by simp [inverse4x4, determinant4x4, Matrix.ones])

theorem squaredLength_nonneg (v : Vector α) : 0 ≤ v.squaredLength :=
  add_nonneg (add_nonneg (mul_self_nonneg v.x) (mul_self_nonneg v.y)) (mul_self_nonneg v.z)

/-- A 4×4 matrix that is invertible (determinant 2) but whose bottom row is
`(0,0,0,2)`, not `(0,0,0,1)`: its inverse rescales the homogeneous w entry. -/
def scaleW2 : Matrix 4 4 ℚ :=
  .of ![![1, 0, 0, 0], ![0, 1, 0, 0], ![0, 0, 1, 0], ![0, 0, 0, 2]]

/-- Counterexample to C2 as stated: a sphere whose transform is invertible on
which `intersect` returns no list at all — the inverse maps the ray origin to
a column with w = 1/2, the `try_into` inside `Ray::transform` fails and the
`expect` panics (embedded as `none`), so neither the zero- nor the
two-intersection outcome happens. -/
theorem c2_intersect_counterexample :
    inverse4x4 scaleW2 ≠ none ∧
    Ray.intersect id (⟨⟨0, 0, 0⟩, ⟨0, 0, 1⟩⟩ : Ray ℚ) ⟨scaleW2, Material.default⟩ = none := by
  constructor
  · simp [inverse4x4, determinant4x4, scaleW2, Matrix.vecHead, Matrix.vecTail]
  · simp +decide [Ray.intersect, inverse4x4, determinant4x4, adjugate4x4, scaleW2,
      Ray.transform, Point.tryFromMatrix, Vector.tryFromMatrix, Matrix.matmul,
      Point.toMatrix, Vector.toMatrix, Fin.sum_univ_four, Matrix.vecHead, Matrix.vecTail]

/-- C2 (amended): for every ray and every sphere whose transform is invertible
and affine (bottom row `(0,0,0,1)` — for an invertible non-affine transform
the `expect` inside the object-space transform can panic), `intersect` moves
the ray to object space, returns zero intersections when the discriminant of
the unit-sphere quadratic is negative, and otherwise returns exactly two
intersections with parameters `(−b − √disc)/(2a)` and `(−b + √disc)/(2a)` in
ascending order, each carrying the original untransformed sphere; a tangent
ray (disc = 0) yields two equal parameters, never one. -/
theorem c2_intersect_quadratic (r : Ray ℝ) (s : Sphere ℝ) (B : Matrix 4 4 ℝ)
    (hinv : inverse4x4 s.transform = some B)
    (h0 : s.transform.data 3 0 = 0) (h1 : s.transform.data 3 1 = 0)
    (h2 : s.transform.data 3 2 = 0) (h3 : s.transform.data 3 3 = 1) :
    ∃ ray : Ray ℝ, r.transform B = some ray ∧
      (let sphereToRay := ray.origin.subPoint Point.origin
       let a := ray.direction.squaredLength
       let b := 2 * ray.direction.dot sphereToRay
       let c := sphereToRay.squaredLength - 1
       let discriminant := b * b - 4 * a * c
       (discriminant < 0 → r.intersect Real.sqrt s = some []) ∧
       (0 ≤ discriminant →
         r.intersect Real.sqrt s =
           some [⟨(-b - Real.sqrt discriminant) / (2 * a), s⟩,
                 ⟨(-b + Real.sqrt discriminant) / (2 * a), s⟩] ∧
         (-b - Real.sqrt discriminant) / (2 * a) ≤
           (-b + Real.sqrt discriminant) / (2 * a))) := by
  obtain ⟨b0, b1, b2, b3⟩ := inverse4x4_affine s.transform B hinv h0 h1 h2 h3
  have htrans := transform_affine r B b0 b1 b2 b3
  refine ⟨_, htrans, ?_⟩
  set ray : Ray ℝ :=
    ⟨⟨(B.matmul r.origin.toMatrix).data 0 0, (B.matmul r.origin.toMatrix).data 1 0,
      (B.matmul r.origin.toMatrix).data 2 0⟩,
     ⟨(B.matmul r.direction.toMatrix).data 0 0, (B.matmul r.direction.toMatrix).data 1 0,
      (B.matmul r.direction.toMatrix).data 2 0⟩⟩ with hray
  have hbody : r.intersect Real.sqrt s =
      (let sphereToRay := ray.origin.subPoint Point.origin
       let a := ray.direction.squaredLength
       let b := 2 * ray.direction.dot sphereToRay
       let c := sphereToRay.squaredLength - 1
       let discriminant := b * b - 4 * a * c
       if discriminant < 0 then some [] else
         some [⟨(-b - Real.sqrt discriminant) * (1 / (2 * a)), s⟩,
               ⟨(-b + Real.sqrt discriminant) * (1 / (2 * a)), s⟩]) := by
    unfold Ray.intersect
    rw [hinv]
    dsimp only
    rw [htrans]
  refine ⟨fun hneg => ?_, fun hpos => ?_⟩
  · rw [hbody]
    exact if_pos hneg
  · have ha : (0:ℝ) ≤ ray.direction.squaredLength := squaredLength_nonneg _
    have hdiv : (0:ℝ) ≤ 1 / (2 * ray.direction.squaredLength) :=
      one_div_nonneg.mpr (by linarith)
    have hsq : (0:ℝ) ≤ Real.sqrt
        (2 * ray.direction.dot (ray.origin.subPoint Point.origin) *
            (2 * ray.direction.dot (ray.origin.subPoint Point.origin)) -
          4 * ray.direction.squaredLength *
            ((ray.origin.subPoint Point.origin).squaredLength - 1)) :=
      Real.sqrt_nonneg _
    constructor
    · rw [hbody, if_neg (not_lt.mpr hpos)]
      simp only [mul_one_div]
    · rcases eq_or_lt_of_le ha with hz | hpos2
      · rw [← hz]
        norm_num
      · exact (div_le_div_iff_of_pos_right (by linarith)).mpr (by linarith [hsq])

/-- Witness for C2 (amended): the default sphere over `ℝ` (identity
transform) and the ray from `(0,0,−5)` along `(0,0,1)`. -/
theorem c2_intersect_quadratic_witness :
    ∃ ray : Ray ℝ, Ray.transform ⟨⟨0, 0, -5⟩, ⟨0, 0, 1⟩⟩ (Matrix.identity 4) = some ray ∧
      (let sphereToRay := ray.origin.subPoint Point.origin
       let a := ray.direction.squaredLength
       let b := 2 * ray.direction.dot sphereToRay
       let c := sphereToRay.squaredLength - 1
       let discriminant := b * b - 4 * a * c
       (discriminant < 0 →
         Ray.intersect Real.sqrt ⟨⟨0, 0, -5⟩, ⟨0, 0, 1⟩⟩ (Sphere.default : Sphere ℝ) =
           some []) ∧
       (0 ≤ discriminant →
         Ray.intersect Real.sqrt ⟨⟨0, 0, -5⟩, ⟨0, 0, 1⟩⟩ (Sphere.default : Sphere ℝ) =
           some [⟨(-b - Real.sqrt discriminant) / (2 * a), Sphere.default⟩,
                 ⟨(-b + Real.sqrt discriminant) / (2 * a), Sphere.default⟩] ∧
         (-b - Real.sqrt discriminant) / (2 * a) ≤
           (-b + Real.sqrt discriminant) / (2 * a))) :=
  c2_intersect_quadratic ⟨⟨0, 0, -5⟩, ⟨0, 0, 1⟩⟩ Sphere.default (Matrix.identity 4)
    inverse4x4_identity (by simp +decide [Sphere.default, Matrix.identity])
    (by simp +decide [Sphere.default, Matrix.identity])
    (by simp +decide [Sphere.default, Matrix.identity])
    (by simp +decide [Sphere.default, Matrix.identity])

end RayTheorems

section LightingTheorems

variable {α : Type} [LinearOrderedField α]

/-- C9: whenever the normalized light direction (from the shaded point toward
the light) has non-positive dot product with the surface normal, `lighting`
returns exactly the ambient term — the componentwise product of the material
color and the light intensity scaled by the ambient coefficient — with both
the diffuse and specular contributions equal to black. -/
theorem c9_lighting_light_behind_surface (sqrt : α → α) (powf : α → α → α)
    (m : Material α) (light : PointLight α) (point : Point α) (eye normal : Vector α)
    (h : ((light.position.subPoint point).normalize sqrt).dot normal ≤ 0) :
    Material.lighting sqrt powf m light point eye normal =
      (m.color.mulColor light.intensity).mulScalar m.ambient := by
  simp only [Material.lighting]
  rw [if_neg (not_lt.mpr h)]
  simp [Color.add, Color.black, Color.mulColor, Color.mulScalar]

/-- Witness for C9 over `ℚ`: point at the origin, normal `(0,0,−1)`, light
directly behind the surface at `(0,0,10)` (the square root of the squared
distance 100 is supplied as the constant 10). -/
theorem c9_lighting_light_behind_surface_witness :
    Material.lighting (fun _ => 10) (fun x _ => x) (Material.default : Material ℚ)
      ⟨⟨0, 0, 10⟩, Color.white⟩ Point.origin ⟨0, 0, -1⟩ ⟨0, 0, -1⟩ =
      ((Material.default : Material ℚ).color.mulColor Color.white).mulScalar
        (Material.default : Material ℚ).ambient :=
  c9_lighting_light_behind_surface (fun _ => 10) (fun x _ => x) Material.default
    ⟨⟨0, 0, 10⟩, Color.white⟩ Point.origin ⟨0, 0, -1⟩ ⟨0, 0, -1⟩
    (by norm_num [Vector.normalize, Vector.length, Vector.squaredLength, Vector.dot,
      Vector.divScalar, Point.subPoint, Point.origin])

theorem sqrt_hundred : Real.sqrt 100 = 10 := by
  rw [show (100:ℝ) = 10 ^ 2 by norm_num, Real.sqrt_sq (by norm_num : (0:ℝ) ≤ 10)]

/-- C8 (amended): with the default material, the shaded point at the origin,
eye and normal both `(0,0,−1)`: a white point light at `(0,0,−10)` gives
`(1.9, 1.9, 1.9)`, and a white point light moved behind the surface to
`(0,0,10)` — not `(0,10,−10)` as the spec says — gives `(0.1, 0.1, 0.1)`
(the ambient-only branch). -/
theorem c8_lighting_default_material_examples :
    approxEqColor
      (Material.lighting Real.sqrt (fun x y => x ^ y) Material.default
        ⟨⟨0, 0, -10⟩, Color.white⟩ Point.origin ⟨0, 0, -1⟩ ⟨0, 0, -1⟩)
      ⟨19 / 10, 19 / 10, 19 / 10⟩ ∧
    approxEqColor
      (Material.lighting Real.sqrt (fun x y => x ^ y) Material.default
        ⟨⟨0, 0, 10⟩, Color.white⟩ Point.origin ⟨0, 0, -1⟩ ⟨0, 0, -1⟩)
      ⟨1 / 10, 1 / 10, 1 / 10⟩ := by
  constructor
  · norm_num [Material.lighting, Material.default, Color.white, Color.mulColor,
      Color.mulScalar, Color.add, Color.black, Vector.normalize, Vector.length,
      Vector.squaredLength, Vector.dot, Vector.divScalar, Vector.neg, Vector.reflect,
      Vector.sub, Vector.smul, Point.subPoint, Point.origin, sqrt_hundred,
      approxEqColor, approxEq]
    positivity
  · norm_num [Material.lighting, Material.default, Color.white, Color.mulColor,
      Color.mulScalar, Color.add, Color.black, Vector.normalize, Vector.length,
      Vector.squaredLength, Vector.dot, Vector.divScalar, Vector.neg, Vector.reflect,
      Vector.sub, Vector.smul, Point.subPoint, Point.origin, sqrt_hundred,
      approxEqColor, approxEq]
    positivity

/-- Counterexample to C8 as stated: with the light at `(0,10,−10)` (45° above,
still in front of the surface) the diffuse term is about 0.6364, so the result
is about `(0.7364, 0.7364, 0.7364)` — not within tolerance of
`(0.1, 0.1, 0.1)`. -/
theorem c8_lighting_counterexample :
    ¬ approxEqColor
      (Material.lighting Real.sqrt (fun x y => x ^ y) Material.default
        ⟨⟨0, 10, -10⟩, Color.white⟩ Point.origin ⟨0, 0, -1⟩ ⟨0, 0, -1⟩)
      ⟨1 / 10, 1 / 10, 1 / 10⟩ := by
  have hs : (0:ℝ) < Real.sqrt 200 := Real.sqrt_pos.mpr (by norm_num)
  have hu15 : Real.sqrt 200 < 15 := by
    nlinarith [Real.sq_sqrt (show (0:ℝ) ≤ 200 by norm_num), Real.sqrt_nonneg 200]
  have hc1 : (-10 / Real.sqrt 200 : ℝ) < 0 := div_neg_of_neg_of_pos (by norm_num) hs
  have hc2 : (2 * (-10 / Real.sqrt 200) : ℝ) < -10 / Real.sqrt 200 := by linarith
  have hA : (2 / 3 : ℝ) < 10 / Real.sqrt 200 := by
    rw [div_lt_div_iff₀ (by norm_num) hs]
    nlinarith
  have hp : (0:ℝ) ≤ (10 / Real.sqrt 200) ^ (200:ℝ) :=
    Real.rpow_nonneg (by positivity) _
  norm_num [Material.lighting, Material.default, Color.white, Color.mulColor,
    Color.mulScalar, Color.add, Color.black, Vector.normalize, Vector.length,
    Vector.squaredLength, Vector.dot, Vector.divScalar, Vector.neg, Vector.reflect,
    Vector.sub, Vector.smul, Point.subPoint, Point.origin,
    approxEqColor, approxEq, if_pos hc1, if_pos hc2]
  rw [show (-(2 * ((-10:ℝ) / Real.sqrt 200)) + -10 / Real.sqrt 200) = 10 / Real.sqrt 200
    by ring]
  rw [show ((-10:ℝ) / Real.sqrt 200) = -(10 / Real.sqrt 200) by ring]
  rw [abs_of_pos (by norm_num : (0:ℝ) < 1 / 10), abs_of_pos (by nlinarith)]
  nlinarith

end LightingTheorems

section NormalTheorems

/-- Normalizing a nonzero vector with the real square root gives a vector of
length exactly 1. -/
theorem length_normalize_eq_one (v : Vector ℝ) (hv : v ≠ ⟨0, 0, 0⟩) :
    (v.normalize Real.sqrt).length Real.sqrt = 1 := by
  rcases v with ⟨x, y, z⟩
  have hge : (0:ℝ) ≤ x * x + y * y + z * z := by
    nlinarith [mul_self_nonneg x, mul_self_nonneg y, mul_self_nonneg z]
  have hq : 0 < x * x + y * y + z * z := by
    rcases eq_or_lt_of_le hge with h | h
    · exfalso
      have hx : x = 0 := by nlinarith [mul_self_nonneg x, mul_self_nonneg y, mul_self_nonneg z]
      have hy : y = 0 := by nlinarith [mul_self_nonneg x, mul_self_nonneg y, mul_self_nonneg z]
      have hz : z = 0 := by nlinarith [mul_self_nonneg x, mul_self_nonneg y, mul_self_nonneg z]
      exact hv (by simp [hx, hy, hz])
    · exact h
  have hq2 : ((Vector.mk x y z).normalize Real.sqrt).squaredLength = 1 := by
    simp only [Vector.normalize, Vector.length, Vector.squaredLength, Vector.dot,
      Vector.divScalar]
    rw [div_mul_div_comm, div_mul_div_comm, div_mul_div_comm, div_add_div_same,
      div_add_div_same, Real.mul_self_sqrt (le_of_lt hq)]
    exact div_self (ne_of_gt hq)
  have hlen : Vector.length Real.sqrt ((Vector.mk x y z).normalize Real.sqrt) =
      Real.sqrt ((Vector.mk x y z).normalize Real.sqrt).squaredLength := rfl
  rw [hlen, hq2, Real.sqrt_one]

/-- The world-normal vector described by C7, before normalization, following
the spec's words: map the world point into object space with the inverse
transform, take the object-space coordinates as the object normal, map it
back through the transpose of the inverse transform, zero the w component and
reinterpret as a Vector. -/
def specNormalVector {α : Type} [LinearOrderedField α] (inv : Matrix 4 4 α) (p : Point α) :
    Vector α :=
  let objectPoint := inv.matmul p.toMatrix
  let objectNormal : Vector α :=
    ⟨objectPoint.data 0 0, objectPoint.data 1 0, objectPoint.data 2 0⟩
  let worldNormal := inv.transpose.matmul objectNormal.toMatrix
  ⟨worldNormal.data 0 0, worldNormal.data 1 0, worldNormal.data 2 0⟩

/-- Zeroing the w entry of a 4×1 column is the same as re-embedding its first
three entries as a vector column. -/
theorem setWZero_eq_toMatrix {α : Type} [LinearOrderedField α] (m : Matrix 4 1 α) :
    setWZero m = (Vector.mk (m.data 0 0) (m.data 1 0) (m.data 2 0)).toMatrix := by
  apply Matrix.ext_data
  funext i j
  fin_cases i <;> fin_cases j <;>
    simp +decide [setWZero, Vector.toMatrix, Matrix.vecHead, Matrix.vecTail]

/-- C7 (amended): for a sphere with invertible transform, `normal_at` returns
the normalization of the vector obtained by the inverse-transpose pipeline of
the spec, and — provided that vector is nonzero, i.e. the world point is not
mapped to the sphere's center — the returned vector has length approximately
1 (exactly 1 in exact arithmetic). -/
theorem c7_normal_at_spec (s : Sphere ℝ) (p : Point ℝ) (B : Matrix 4 4 ℝ)
    (hinv : inverse4x4 s.transform = some B) :
    s.normalAt Real.sqrt p = some ((specNormalVector B p).normalize Real.sqrt) ∧
    (specNormalVector B p ≠ ⟨0, 0, 0⟩ →
      approxEq (((specNormalVector B p).normalize Real.sqrt).length Real.sqrt) 1) := by
  constructor
  · unfold Sphere.normalAt
    rw [hinv]
    dsimp only
    rw [setWZero_eq_toMatrix (B.matmul p.toMatrix)]
    rw [setWZero_eq_toMatrix (B.transpose.matmul _)]
    rw [Vector.tryFromMatrix]
    rw [if_pos (by simp [Vector.toMatrix, Matrix.vecHead, Matrix.vecTail] :
      ((Vector.mk _ _ _).toMatrix : Matrix 4 1 ℝ).data 3 0 = 0)]
    simp [Vector.toMatrix, Matrix.vecHead, Matrix.vecTail, specNormalVector,
      Option.map_some']
  · intro hne
    rw [length_normalize_eq_one _ hne]
    exact approxEq_self 1

/-- Counterexample to C7's unconditional unit-length claim: at the center of
the default sphere the pipeline produces the zero vector, normalization
divides by `√0 = 0` (NaN in f64, zero in the exact embedding), and the length
of the result is 0, not approximately 1. -/
theorem c7_normal_at_counterexample :
    Sphere.normalAt Real.sqrt (Sphere.default : Sphere ℝ) Point.origin = some ⟨0, 0, 0⟩ ∧
    ¬ approxEq ((Vector.mk (0:ℝ) 0 0).length Real.sqrt) 1 := by
  constructor
  · unfold Sphere.normalAt
    rw [show inverse4x4 (Sphere.default : Sphere ℝ).transform = some (Matrix.identity 4)
      from inverse4x4_identity]
    dsimp only
    norm_num +decide [setWZero, Matrix.matmul, Matrix.transpose, Matrix.identity,
      Fin.sum_univ_four, Point.toMatrix, Point.origin, Vector.tryFromMatrix,
      Vector.normalize, Vector.length, Vector.squaredLength, Vector.dot,
      Vector.divScalar, Real.sqrt_zero, Matrix.vecHead, Matrix.vecTail, Option.map_some']
  · norm_num [Vector.length, Vector.squaredLength, Vector.dot, Real.sqrt_zero, approxEq]

/-- Witness for C7 (amended): the default sphere and the surface point
`(0,0,1)`, where the pipeline vector is `(0,0,1) ≠ 0`. -/
theorem c7_normal_at_spec_witness :
    Sphere.normalAt Real.sqrt (Sphere.default : Sphere ℝ) ⟨0, 0, 1⟩ =
      some ((specNormalVector (Matrix.identity 4) ⟨0, 0, 1⟩).normalize Real.sqrt) ∧
    approxEq (((specNormalVector (Matrix.identity 4) ⟨0, 0, 1⟩).normalize Real.sqrt).length
      Real.sqrt) 1 :=
  ⟨(c7_normal_at_spec Sphere.default ⟨0, 0, 1⟩ (Matrix.identity 4) inverse4x4_identity).1,
   (c7_normal_at_spec Sphere.default ⟨0, 0, 1⟩ (Matrix.identity 4) inverse4x4_identity).2
     (by norm_num +decide [specNormalVector, Matrix.matmul, Matrix.transpose,
       Matrix.identity, Fin.sum_univ_four, Point.toMatrix, Vector.toMatrix,
       Matrix.vecHead, Matrix.vecTail])⟩

end NormalTheorems

end Raytracer
